import Mathlib

/-!
Verification of the time-synchronization and event-windowing core of the
chart-preview repository (src/unnamed/part_000), against its specification.

The TypeScript classes are shallowly embedded:
* JS numbers that only undergo field arithmetic and comparisons are modelled
  as rationals (the volume round trip, which uses Math.sqrt, is modelled over
  the reals);
* each class becomes a structure holding exactly the mutable fields the
  verified methods read or write, and each method becomes a pure function
  from the old state (plus the ambient clock values it reads) to the new
  state and/or its return value;
* the shared AudioContext clock (audioCtx.currentTime, baseLatency,
  outputLatency) and performance.now() are passed in as explicit arguments.
-/

/-! ## AudioManager (src/unnamed/part_000, lines 677-940) -/

/-- Ambient readings of the shared AudioContext used by AudioManager:
currentTime (seconds), baseLatency and outputLatency (seconds;
outputLatency reads as 0 where unimplemented). -/
structure AudioCtx where
  currentTime : ℚ
  baseLatency : ℚ
  outputLatency : ℚ
deriving DecidableEq

/-- Mutable fields of the AudioManager class that the verified methods
touch, together with its constructor parameters.  audioBufferDurations
lists the duration (seconds) of each decoded AudioBuffer; only its length
matters for scheduling.  isPaused embeds the source field named with a
leading underscore. -/
structure AudioManager where
  lastSeekChartTimeMs : ℚ
  lastAudioCtxCurrentTime : ℚ
  isPaused : Bool
  startDelayMs : ℚ
  audioLengthMs : ℚ
  fallbackAudioLengthMs : ℚ
  audioBufferDurations : List ℚ
deriving DecidableEq

/-- One AudioBufferSourceNode as scheduled by source.start(when, offset):
whenTime is the absolute device time passed as the first argument, offset
the buffer read offset in seconds passed as the second. -/
structure ScheduledSource where
  whenTime : ℚ
  offset : ℚ
deriving DecidableEq

namespace AudioManager

/-- Getter chartEndTimeMs (lines 762-774):
Math.max(startDelayMs + audioLengthMs, audioLengthMs, fallbackAudioLengthMs, 0). -/
def chartEndTimeMs (am : AudioManager) : ℚ :=
  let theoreticalEndTime := am.startDelayMs + am.audioLengthMs
  max theoreticalEndTime (max am.audioLengthMs (max am.fallbackAudioLengthMs 0))

/-- Getter chartCurrentTimeMs (lines 747-760). -/
def chartCurrentTimeMs (am : AudioManager) (ctx : AudioCtx) : ℚ :=
  if am.isPaused then
    am.lastSeekChartTimeMs
  else
    let audioLatency := (ctx.baseLatency + ctx.outputLatency) * 1000
    let audioTimeSinceLastSeekMs := (ctx.currentTime - am.lastAudioCtxCurrentTime) * 1000
    am.lastSeekChartTimeMs + audioTimeSinceLastSeekMs - audioLatency

/-- The scheduling part of startAudioSources (lines 869-920): for each
decoded buffer a source is created and started at
source.start(audioCtx.currentTime + delaySeconds, offset) where
delaySeconds = |min(audioStartOffsetSeconds, 0)| and
offset = max(audioStartOffsetSeconds, 0).  The gain-node wiring and the
onended handlers (modelled separately as PlaySession) are elided here. -/
def startAudioSources (am : AudioManager) (currentTime : ℚ) : List ScheduledSource :=
  let audioStartOffsetSeconds := (am.lastSeekChartTimeMs - am.startDelayMs) / 1000
  am.audioBufferDurations.map (fun _ =>
    let delaySeconds := |min audioStartOffsetSeconds 0|
    { whenTime := currentTime + delaySeconds, offset := max audioStartOffsetSeconds 0 })

/-- Method seek(percentComplete) (lines 925-939): stops the sources, then
sets lastSeekChartTimeMs := percentComplete * chartEndTimeMs,
lastAudioCtxCurrentTime := audioCtx.currentTime, and pauses. -/
def seek (am : AudioManager) (currentTime : ℚ) (percentComplete : ℚ) : AudioManager :=
  { am with
    lastSeekChartTimeMs := percentComplete * am.chartEndTimeMs,
    lastAudioCtxCurrentTime := currentTime,
    isPaused := true }

end AudioManager

/-! ## Volume setter and getter (lines 734-745)

The setter clamps to the unit interval, stores the square of the clamp in
the private volume field and writes the same value to gainNode.gain.value
when a gain node exists; the getter returns Math.sqrt of the stored value.
Math.sqrt forces this single piece of the model onto the reals. -/

/-- The private volume field together with gainNode.gain.value
(none while no gain node is connected). -/
structure VolumeState where
  vol : ℝ
  gainValue : Option ℝ

/-- Setter set volume(volume) (lines 735-741). -/
noncomputable def setVolume (s : VolumeState) (volume : ℝ) : VolumeState :=
  let clamped := max 0 (min 1 volume)
  { vol := clamped * clamped,
    gainValue := s.gainValue.map (fun _ => clamped * clamped) }

/-- Getter get volume() (lines 743-745). -/
noncomputable def getVolume (s : VolumeState) : ℝ :=
  Real.sqrt s.vol

/-! ## SilentAudioManager (lines 943-1043), the wall-clock fallback -/

/-- Mutable fields of SilentAudioManager plus its constructor parameters.
endEventTimeoutMs records the delay of the pending setTimeout, if any. -/
structure SilentAudioManager where
  startDelayMs : ℚ
  audioLengthMs : ℚ
  isPaused : Bool
  lastResumeChartTimeMs : ℚ
  lastResumeClockTimeMs : ℚ
  endEventTimeoutMs : Option ℚ
deriving DecidableEq

namespace SilentAudioManager

/-- Getter chartEndTimeMs (lines 999-1004):
Math.max(startDelayMs + audioLengthMs, audioLengthMs, 0). -/
def chartEndTimeMs (m : SilentAudioManager) : ℚ :=
  let theoreticalEndTime := m.startDelayMs + m.audioLengthMs
  max theoreticalEndTime (max m.audioLengthMs 0)

/-- Getter chartCurrentTimeMs (lines 987-997); now is performance.now(). -/
def chartCurrentTimeMs (m : SilentAudioManager) (now : ℚ) : ℚ :=
  if m.isPaused then
    m.lastResumeChartTimeMs
  else
    m.lastResumeChartTimeMs + now - m.lastResumeClockTimeMs

/-- Method play() (lines 1006-1016); now is performance.now(). -/
def play (m : SilentAudioManager) (now : ℚ) : SilentAudioManager :=
  let m1 := if m.chartEndTimeMs - 2 ≤ m.lastResumeChartTimeMs then
      { m with lastResumeChartTimeMs := 0 }
    else m
  { m1 with
    lastResumeClockTimeMs := now,
    endEventTimeoutMs := some (m1.chartEndTimeMs - m1.lastResumeChartTimeMs),
    isPaused := false }

/-- Method pause() (lines 1018-1024). -/
def pause (m : SilentAudioManager) (now : ℚ) : SilentAudioManager :=
  { m with
    lastResumeChartTimeMs := m.chartCurrentTimeMs now,
    endEventTimeoutMs := none,
    isPaused := true }

/-- Method seek(percentComplete) (lines 1036-1042): stores
chartEndTimeMs * percentComplete and, when not paused, calls play(). -/
def seek (m : SilentAudioManager) (now : ℚ) (percentComplete : ℚ) : SilentAudioManager :=
  let m1 := { m with lastResumeChartTimeMs := m.chartEndTimeMs * percentComplete }
  if m1.isPaused = false then m1.play now else m1

end SilentAudioManager

/-! ## Progress throttling in ChartPreview.animateFrame (lines 583-613) -/

/-- The two ChartPreview fields driving progress throttling. -/
structure FrameState where
  progressIntervalMs : ℚ
  lastProgressEmitTime : ℚ
deriving DecidableEq

/-- The progress-emission tail of animateFrame (lines 601-612): when emit
is requested and at least progressIntervalMs has elapsed since the last
emission, record the emission time and notify.  Returns whether a progress
notification was emitted; the rendering done earlier in the frame has no
effect on these fields and is elided. -/
def animateFrame (s : FrameState) (now : ℚ) (emit : Bool) : Bool × FrameState :=
  if emit then
    if s.progressIntervalMs ≤ now - s.lastProgressEmitTime then
      (true, { s with lastProgressEmitTime := now })
    else
      (false, s)
  else
    (false, s)

/-- Wall-clock times at which a run of frames emits progress notifications:
each frame is a pair of its performance.now() reading and its emit flag. -/
def emitTimes (s : FrameState) : List (ℚ × Bool) → List ℚ
  | [] => []
  | frame :: rest =>
    let step := animateFrame s frame.1 frame.2
    if step.1 then frame.1 :: emitTimes step.2 rest else emitTimes step.2 rest

/-! ## EventSequence (lines 1223-1274)

Events carry msTime, msLength and an optional note type; note types are
numbers in scan-chart, modelled as naturals.  The class keeps a JS Map
from note type to the index of the closest preceding event of that type
(insertion-ordered association list here) and the index of the last event
scanned so far (-1 initially).  Indices returned and stored follow the
source: the cursor field is an integer that can be -1. -/

/-- One element of the events array passed to the EventSequence
constructor. -/
structure Ev where
  msTime : ℚ
  msLength : ℚ
  type : Option ℕ
deriving DecidableEq

/-- Default Ev used to express out-of-range array accesses that the class
invariant keeps unreachable. -/
def evDefault : Ev := ⟨0, 0, none⟩

/-- Mutable cursor state of an EventSequence instance. -/
structure EventSequence where
  lastPrecedingEventIndexesOfType : List (Option ℕ × ℕ)
  lastPrecedingEventIndex : ℤ
deriving DecidableEq

/-- Map.set of the JS Map backing lastPrecedingEventIndexesOfType:
replace in place if the key is present, append otherwise. -/
def mapSet (m : List (Option ℕ × ℕ)) (k : Option ℕ) (v : ℕ) : List (Option ℕ × ℕ) :=
  match m with
  | [] => [(k, v)]
  | kv :: rest => if kv.1 = k then (k, v) :: rest else kv :: mapSet rest k v

namespace EventSequence

/-- Cursor state of a freshly constructed EventSequence (lines 1227-1231),
identical to the state installed by the backward-jump reset. -/
def init : EventSequence := ⟨[], -1⟩

/-- The while loop of getEarliestActiveEventIndex (lines 1247-1256).
remaining is the suffix of the events array starting at index i, where
i = lastPrecedingEventIndex + 1 is the index of the first unscanned
event; the returned second component is the new value of
lastPrecedingEventIndex + 1. -/
def scanLoop (startMs : ℚ) : List Ev → ℕ → List (Option ℕ × ℕ) → List (Option ℕ × ℕ) × ℕ
  | [], i, m => (m, i)
  | e :: rest, i, m =>
    if e.msTime < startMs then
      scanLoop startMs rest (i + 1) (mapSet m e.type i)
    else
      (m, i)

/-- One iteration of the minimum-search loop over the map
(lines 1259-1268): keep the smaller of the running earliest index and the
recorded index when the recorded event span still covers startMs. -/
def minOpenStep (events : List Ev) (startMs : ℚ)
    (earliestActiveEventIndex : Option ℕ) (kv : Option ℕ × ℕ) : Option ℕ :=
  let e := events.getD kv.2 evDefault
  if startMs < e.msTime + e.msLength then
    match earliestActiveEventIndex with
    | none => some kv.2
    | some j => if kv.2 < j then some kv.2 else some j
  else earliestActiveEventIndex

/-- The minimum-search loop over the map (lines 1258-1268): the smallest
recorded index whose event span still covers startMs, traversed in map
insertion order exactly as the source does. -/
def minOpen (events : List Ev) (startMs : ℚ) (m : List (Option ℕ × ℕ)) : Option ℕ :=
  m.foldl (minOpenStep events startMs) none

/-- The reset block opening getEarliestActiveEventIndex (lines 1237-1246):
the cursor is invalidated exactly when the query time precedes the msTime
of the last scanned event. -/
def cursorAfterReset (events : List Ev) (s : EventSequence) (startMs : ℚ) : EventSequence :=
  if s.lastPrecedingEventIndex ≠ -1 ∧
      startMs < (events.getD s.lastPrecedingEventIndex.toNat evDefault).msTime then
    init
  else s

/-- The remainder of getEarliestActiveEventIndex after the reset block
(lines 1247-1272): advance the scan from the first unscanned index, then
return the earliest still-open recorded index, or
lastPrecedingEventIndex + 1 when none is open.  Returns the result
together with the updated cursor (whose scan index is the integer
scanned.2 - 1). -/
def scanAndSelect (events : List Ev) (s1 : EventSequence) (startMs : ℚ) :
    ℤ × EventSequence :=
  let scanned := scanLoop startMs
    (events.drop (s1.lastPrecedingEventIndex + 1).toNat)
    (s1.lastPrecedingEventIndex + 1).toNat
    s1.lastPrecedingEventIndexesOfType
  (match minOpen events startMs scanned.1 with
    | none => (scanned.2 : ℤ)
    | some i => (i : ℤ),
    ⟨scanned.1, (scanned.2 : ℤ) - 1⟩)

/-- Method getEarliestActiveEventIndex(startMs) (lines 1236-1273): the
reset block followed by the scan and selection. -/
def getEarliestActiveEventIndex (events : List Ev) (s : EventSequence) (startMs : ℚ) :
    ℤ × EventSequence :=
  scanAndSelect events (cursorAfterReset events s startMs) startMs

/-- An event index is open (still active) at a query time when
msTime + msLength > startMs, the test applied by the source to the
recorded indices. -/
def isOpenAt (events : List Ev) (startMs : ℚ) (i : ℕ) : Prop :=
  startMs < (events.getD i evDefault).msTime + (events.getD i evDefault).msLength

instance (events : List Ev) (startMs : ℚ) (i : ℕ) :
    Decidable (isOpenAt events startMs i) := by
  unfold isOpenAt; infer_instance

/-- An event index is active at a time when the event exists and the time
lies in [msTime, msTime + msLength); the reading under which the returned
indices of the specification example imply active or inactive. -/
def isActiveAt (events : List Ev) (t : ℚ) (i : ℕ) : Prop :=
  i < events.length ∧ (events.getD i evDefault).msTime ≤ t ∧
    t < (events.getD i evDefault).msTime + (events.getD i evDefault).msLength

instance (events : List Ev) (t : ℚ) (i : ℕ) :
    Decidable (isActiveAt events t i) := by
  unfold isActiveAt; infer_instance

/-- Cursor well-formedness: the scan index is at least -1 and every
recorded map index has been scanned.  It holds for the fresh cursor and is
preserved by every query, so it holds in every reachable state. -/
def Inv (s : EventSequence) : Prop :=
  -1 ≤ s.lastPrecedingEventIndex ∧
    ∀ kv ∈ s.lastPrecedingEventIndexesOfType, (kv.2 : ℤ) ≤ s.lastPrecedingEventIndex

/-- The index predicate the claim uses to characterize the return value:
either an event not yet scanned whose msTime precedes the query time, or a
scanned event whose span is still open. -/
def claimQualifies (events : List Ev) (s : EventSequence) (nowMs : ℚ) (i : ℕ) : Prop :=
  (s.lastPrecedingEventIndex < (i : ℤ) ∧ i < events.length ∧
      (events.getD i evDefault).msTime < nowMs) ∨
    ((i : ℤ) ≤ s.lastPrecedingEventIndex ∧ isOpenAt events nowMs i)

instance (events : List Ev) (s : EventSequence) (nowMs : ℚ) (i : ℕ) :
    Decidable (claimQualifies events s nowMs i) := by
  unfold claimQualifies; infer_instance

end EventSequence

/-! ## End-of-playback notification (lines 848-864 and 897-918)

One call of startAudioSources creates one source per decoded buffer,
attaches an onended handler to each, and closes over a fresh endedCount.
A handler that is still attached when its source ends naturally increments
endedCount and emits the end notification once endedCount reaches the
buffer count while the instance is not paused.  stopAudioSources (called
by pause and by seek) first nulls every onended handler, so sources it
stops never run their handler.  The events a session can observe are
modelled as a trace; the single-threaded host runs each to completion. -/

/-- One AudioBufferSourceNode of the current play session: whether its
onended handler is still attached, and whether the node has already
reported natural completion (a node ends at most once). -/
structure SourceNode where
  onendedAttached : Bool
  ended : Bool
deriving DecidableEq

/-- Session-visible occurrences: natural completion of source i, a pause()
call, or a seek(percent) call (both of which run stopAudioSources). -/
inductive SessionEv where
  | sourceEnded (i : ℕ)
  | pauseCall
  | seekCall
deriving DecidableEq

/-- Whether a session occurrence is a natural source completion. -/
def SessionEv.isSourceEnded : SessionEv → Bool
  | .sourceEnded _ => true
  | _ => false

/-- State of one play session of AudioManager restricted to end-detection:
the created sources, the endedCount captured by the onended closures,
the isPaused flag, and whether the end notification has been emitted. -/
structure PlaySession where
  sources : List SourceNode
  endedCount : ℕ
  isPaused : Bool
  endEmitted : Bool
deriving DecidableEq

namespace PlaySession

/-- Session state right after play() ran startAudioSources over n decoded
buffers (lines 776-795, 869-920): one source per buffer with its handler
attached, endedCount 0, not paused, nothing emitted. -/
def init (n : ℕ) : PlaySession :=
  ⟨List.replicate n ⟨true, false⟩, 0, false, false⟩

/-- Effect of stopAudioSources plus the paused flag, shared by pause()
(lines 797-813) and seek() (lines 925-939): every handler is nulled before
the sources are stopped, and the instance is paused. -/
def detachAll (s : PlaySession) : PlaySession :=
  { s with
    isPaused := true,
    sources := s.sources.map (fun src => { src with onendedAttached := false }) }

/-- One session occurrence applied to the session state.  A natural
completion of a live source runs the onended handler of lines 900-905:
endedCount is incremented and, when it reaches the number of buffers while
the instance is not paused, the end notification fires.  A completion of a
source whose handler was nulled changes nothing observable. -/
def step (s : PlaySession) : SessionEv → PlaySession
  | .sourceEnded i =>
    match s.sources[i]? with
    | none => s
    | some src =>
      if src.ended then s
      else
        let sources2 := s.sources.set i { src with ended := true }
        if src.onendedAttached then
          let endedCount2 := s.endedCount + 1
          { sources := sources2,
            endedCount := endedCount2,
            isPaused := s.isPaused,
            endEmitted := s.endEmitted || (endedCount2 == s.sources.length && !s.isPaused) }
        else
          { s with sources := sources2 }
  | .pauseCall => s.detachAll
  | .seekCall => s.detachAll

/-- Run a whole trace of session occurrences. -/
def run (s : PlaySession) (tr : List SessionEv) : PlaySession :=
  tr.foldl step s

/-- Session states of a live play session (no pause or seek yet): not
paused, every handler attached, endedCount counting the ended sources,
and the end notification emitted exactly when there is at least one
source and all have ended.  Holds right after play() and is preserved by
natural completions. -/
def LiveInv (s : PlaySession) : Prop :=
  s.isPaused = false ∧ (∀ src ∈ s.sources, src.onendedAttached = true) ∧
    s.endedCount = s.sources.countP (fun src => src.ended) ∧
    s.endEmitted = (decide (1 ≤ s.sources.length) && s.sources.all (fun src => src.ended))

/-- Session states after a pause or seek: paused with every handler
detached. -/
def DeadInv (s : PlaySession) : Prop :=
  s.isPaused = true ∧ ∀ src ∈ s.sources, src.onendedAttached = false

end PlaySession

/-! ## Theorems -/

/-- C1: startAudioSources with offsetSeconds = (lastSeekChartTimeMs -
startDelayMs) / 1000 starts every source at the current device time with
buffer read offset offsetSeconds when offsetSeconds is nonnegative, and at
the current device time plus |offsetSeconds| with read offset 0 when
offsetSeconds is negative, for arbitrary lastSeekChartTimeMs and arbitrary
(including negative) startDelayMs. -/
theorem C1_startAudioSources_offsets (am : AudioManager) (currentTime : ℚ) :
    (0 ≤ (am.lastSeekChartTimeMs - am.startDelayMs) / 1000 →
      ∀ src ∈ am.startAudioSources currentTime,
        src.whenTime = currentTime ∧
          src.offset = (am.lastSeekChartTimeMs - am.startDelayMs) / 1000) ∧
    ((am.lastSeekChartTimeMs - am.startDelayMs) / 1000 < 0 →
      ∀ src ∈ am.startAudioSources currentTime,
        src.whenTime = currentTime + |(am.lastSeekChartTimeMs - am.startDelayMs) / 1000| ∧
          src.offset = 0) := by
  constructor
  · intro h src hsrc
    simp only [AudioManager.startAudioSources, List.mem_map] at hsrc
    obtain ⟨d, _, rfl⟩ := hsrc
    refine ⟨?_, ?_⟩
    · simp [min_eq_right h]
    · simp [max_eq_left h]
  · intro h src hsrc
    simp only [AudioManager.startAudioSources, List.mem_map] at hsrc
    obtain ⟨d, _, rfl⟩ := hsrc
    refine ⟨?_, ?_⟩
    · simp [min_eq_left h.le]
    · simp [max_eq_right h.le]

/-- Witness for C1 at a concrete manager: seek time 500 ms, start delay
100 ms, one decoded buffer, device time 3 s. -/
theorem C1_startAudioSources_offsets_witness :
    (0 : ℚ) ≤
        ((⟨500, 0, true, 100, 0, 0, [1]⟩ : AudioManager).lastSeekChartTimeMs -
          (⟨500, 0, true, 100, 0, 0, [1]⟩ : AudioManager).startDelayMs) / 1000 ∧
      ∀ src ∈ (⟨500, 0, true, 100, 0, 0, [1]⟩ : AudioManager).startAudioSources 3,
        src.whenTime = 3 ∧
          src.offset =
            ((⟨500, 0, true, 100, 0, 0, [1]⟩ : AudioManager).lastSeekChartTimeMs -
              (⟨500, 0, true, 100, 0, 0, [1]⟩ : AudioManager).startDelayMs) / 1000 :=
  ⟨by norm_num,
    (C1_startAudioSources_offsets ⟨500, 0, true, 100, 0, 0, [1]⟩ 3).1 (by norm_num)⟩

/-- C5 counterexample: the fallback manager has no fallbackAudioLengthMs
input at all; its chartEndTimeMs omits that term of the claimed four-way
maximum.  With startDelayMs 0 and audioLengthMs 1000 the fallback manager
reports 1000, which differs from the claimed formula instantiated at
fallbackAudioLengthMs 5000. -/
theorem C5_chartEndTimeMs_counterexample :
    SilentAudioManager.chartEndTimeMs ⟨0, 1000, true, 0, 0, none⟩ ≠
      max ((0 : ℚ) + 1000) (max 1000 (max 5000 0)) := by
  simp only [SilentAudioManager.chartEndTimeMs, max_def]
  norm_num

/-- C5 amended: the audio-backed manager computes
max(startDelayMs + audioLengthMs, audioLengthMs, fallbackAudioLengthMs, 0)
for all values of the three inputs; the wall-clock fallback manager has no
fallbackAudioLengthMs and computes max(startDelayMs + audioLengthMs,
audioLengthMs, 0); both results are strictly positive whenever
audioLengthMs is positive (including startDelayMs = -10^9 or 10^9). -/
theorem C5_chartEndTimeMs_formula (am : AudioManager) (m : SilentAudioManager) :
    am.chartEndTimeMs =
        max (am.startDelayMs + am.audioLengthMs)
          (max am.audioLengthMs (max am.fallbackAudioLengthMs 0)) ∧
      m.chartEndTimeMs = max (m.startDelayMs + m.audioLengthMs) (max m.audioLengthMs 0) ∧
      (0 < am.audioLengthMs → 0 < am.chartEndTimeMs) ∧
      (0 < m.audioLengthMs → 0 < m.chartEndTimeMs) := by
  refine ⟨rfl, rfl, fun h => ?_, fun h => ?_⟩
  · exact lt_of_lt_of_le h (le_max_of_le_right (le_max_left _ _))
  · exact lt_of_lt_of_le h (le_max_of_le_right (le_max_left _ _))

/-- Witness for C5 at audioLengthMs 5 with the extreme start delays the
claim names. -/
theorem C5_chartEndTimeMs_formula_witness :
    (0 : ℚ) < 5 ∧
      0 < AudioManager.chartEndTimeMs ⟨0, 0, true, -1000000000, 5, 7, []⟩ ∧
      0 < SilentAudioManager.chartEndTimeMs ⟨1000000000, 5, true, 0, 0, none⟩ :=
  ⟨by norm_num,
    (C5_chartEndTimeMs_formula ⟨0, 0, true, -1000000000, 5, 7, []⟩
      ⟨1000000000, 5, true, 0, 0, none⟩).2.2.1 (by norm_num),
    (C5_chartEndTimeMs_formula ⟨0, 0, true, -1000000000, 5, 7, []⟩
      ⟨1000000000, 5, true, 0, 0, none⟩).2.2.2 (by norm_num)⟩

/-- C8: setting the volume to v stores clamp(v,0,1) squared, writes that
same value to the gain control when one is connected, and reading the
volume back returns the square root of the stored value, namely
clamp(v,0,1); hence for v in the unit interval the round trip is the
identity. -/
theorem C8_volume_roundtrip (s : VolumeState) (v : ℝ) :
    (setVolume s v).vol = max 0 (min 1 v) * max 0 (min 1 v) ∧
      (∀ g, (setVolume s v).gainValue = some g →
        g = max 0 (min 1 v) * max 0 (min 1 v)) ∧
      getVolume (setVolume s v) = max 0 (min 1 v) ∧
      (0 ≤ v → v ≤ 1 → getVolume (setVolume s v) = v) := by
  have hc : (0 : ℝ) ≤ max 0 (min 1 v) := le_max_left 0 _
  have hget : getVolume (setVolume s v) = max 0 (min 1 v) := by
    simp only [getVolume, setVolume]
    exact Real.sqrt_mul_self hc
  refine ⟨rfl, fun g hg => ?_, hget, fun h0 h1 => ?_⟩
  · simp only [setVolume, Option.map_eq_some'] at hg
    obtain ⟨a, _, rfl⟩ := hg
    rfl
  · rw [hget, min_eq_right h1, max_eq_right h0]

/-- Witness for C8 at v = 1/2 with no gain node connected. -/
theorem C8_volume_roundtrip_witness :
    (0 : ℝ) ≤ 1 / 2 ∧ (1 / 2 : ℝ) ≤ 1 ∧
      getVolume (setVolume ⟨0, none⟩ (1 / 2)) = 1 / 2 :=
  ⟨by norm_num, by norm_num,
    (C8_volume_roundtrip ⟨0, none⟩ (1 / 2)).2.2.2 (by norm_num) (by norm_num)⟩

/-- C10: in the wall-clock fallback manager, play() resets the chart time
to 0 when the stored paused chart time is at least chartEndTimeMs - 2
milliseconds, and otherwise resumes from exactly the stored chart time
(the chart clock read at the resume instant equals the stored time). -/
theorem C10_silent_play_restart (m : SilentAudioManager) (now : ℚ) :
    (m.chartEndTimeMs - 2 ≤ m.lastResumeChartTimeMs →
      (m.play now).lastResumeChartTimeMs = 0) ∧
    (m.lastResumeChartTimeMs < m.chartEndTimeMs - 2 →
      (m.play now).lastResumeChartTimeMs = m.lastResumeChartTimeMs ∧
        (m.play now).chartCurrentTimeMs now = m.lastResumeChartTimeMs) := by
  constructor
  · intro h
    simp only [SilentAudioManager.play]
    split
    next => rfl
    next hcond => exact absurd h hcond
  · intro h
    have hn := not_le.mpr h
    refine ⟨?_, ?_⟩
    · simp only [SilentAudioManager.play]
      split
      next hcond => exact absurd hcond hn
      next => rfl
    · simp only [SilentAudioManager.play]
      split
      next hcond => exact absurd hcond hn
      next =>
        simp only [SilentAudioManager.chartCurrentTimeMs]
        norm_num

/-- Witness for C10: stored time 999 of an end time 1000 restarts at 0;
stored time 500 resumes at 500. -/
theorem C10_silent_play_restart_witness :
    (SilentAudioManager.chartEndTimeMs ⟨0, 1000, true, 999, 0, none⟩ - 2 ≤ 999 ∧
        (SilentAudioManager.play ⟨0, 1000, true, 999, 0, none⟩ 7).lastResumeChartTimeMs = 0) ∧
      ((500 : ℚ) < SilentAudioManager.chartEndTimeMs ⟨0, 1000, true, 500, 0, none⟩ - 2 ∧
        (SilentAudioManager.play ⟨0, 1000, true, 500, 0, none⟩ 7).lastResumeChartTimeMs = 500 ∧
        (SilentAudioManager.play ⟨0, 1000, true, 500, 0, none⟩ 7).chartCurrentTimeMs 7 = 500) :=
  ⟨⟨by simp only [SilentAudioManager.chartEndTimeMs, max_def]; norm_num,
      (C10_silent_play_restart ⟨0, 1000, true, 999, 0, none⟩ 7).1
        (by simp only [SilentAudioManager.chartEndTimeMs, max_def]; norm_num)⟩,
    ⟨by simp only [SilentAudioManager.chartEndTimeMs, max_def]; norm_num,
      (C10_silent_play_restart ⟨0, 1000, true, 500, 0, none⟩ 7).2
        (by simp only [SilentAudioManager.chartEndTimeMs, max_def]; norm_num)⟩⟩

/-- C4 counterexample: in the wall-clock fallback manager, seek while
Playing does not force Paused — seek stores the target and calls play()
again, leaving the instance Playing. -/
theorem C4_seek_counterexample :
    (SilentAudioManager.seek ⟨0, 1000, false, 0, 0, none⟩ 0 (1 / 2)).isPaused = false := by
  simp only [SilentAudioManager.seek, SilentAudioManager.play]
  split
  next => split
          next => rfl
          next => rfl
  next => rfl

/-- C4 amended: after seek(percent), the audio-backed manager is Paused
with chartCurrentTimeMs exactly percent times chartEndTimeMs regardless of
prior state; the wall-clock fallback manager behaves that way only when it
was already Paused, and when it was Playing it stays Playing (seek calls
play() again). -/
theorem C4_seek_forces_pause (am : AudioManager) (ctx : AudioCtx) (m : SilentAudioManager)
    (now percent : ℚ) (h0 : 0 ≤ percent) (h1 : percent ≤ 1) :
    ((am.seek ctx.currentTime percent).isPaused = true ∧
        (am.seek ctx.currentTime percent).chartCurrentTimeMs ctx =
          percent * am.chartEndTimeMs) ∧
      (m.isPaused = true →
        (m.seek now percent).isPaused = true ∧
          (m.seek now percent).chartCurrentTimeMs now = m.chartEndTimeMs * percent) ∧
      (m.isPaused = false → (m.seek now percent).isPaused = false) := by
  refine ⟨⟨rfl, ?_⟩, fun hp => ⟨?_, ?_⟩, fun hp => ?_⟩
  · simp [AudioManager.seek, AudioManager.chartCurrentTimeMs]
  · simp [SilentAudioManager.seek, hp]
  · simp [SilentAudioManager.seek, SilentAudioManager.chartCurrentTimeMs, hp]
  · simp only [SilentAudioManager.seek, SilentAudioManager.play, hp]
    split
    next => split
            next => rfl
            next => rfl
    next => rfl

/-- Witness for C4 at percent 1/2, a concrete device clock, and a paused
fallback manager. -/
theorem C4_seek_forces_pause_witness :
    (0 : ℚ) ≤ 1 / 2 ∧ (1 / 2 : ℚ) ≤ 1 ∧
      (((AudioManager.seek ⟨0, 0, false, 10, 1000, 0, [1]⟩ 4 (1 / 2)).isPaused = true ∧
          (AudioManager.seek ⟨0, 0, false, 10, 1000, 0, [1]⟩ 4 (1 / 2)).chartCurrentTimeMs
              ⟨4, 0, 0⟩ =
            (1 / 2) * AudioManager.chartEndTimeMs ⟨0, 0, false, 10, 1000, 0, [1]⟩) ∧
        ((⟨0, 1000, true, 0, 0, none⟩ : SilentAudioManager).isPaused = true →
          (SilentAudioManager.seek ⟨0, 1000, true, 0, 0, none⟩ 6 (1 / 2)).isPaused = true ∧
            (SilentAudioManager.seek ⟨0, 1000, true, 0, 0, none⟩ 6 (1 / 2)).chartCurrentTimeMs
                6 =
              SilentAudioManager.chartEndTimeMs ⟨0, 1000, true, 0, 0, none⟩ * (1 / 2)) ∧
        ((⟨0, 1000, true, 0, 0, none⟩ : SilentAudioManager).isPaused = false →
          (SilentAudioManager.seek ⟨0, 1000, true, 0, 0, none⟩ 6 (1 / 2)).isPaused = false)) :=
  ⟨by norm_num, by norm_num,
    C4_seek_forces_pause ⟨0, 0, false, 10, 1000, 0, [1]⟩ ⟨4, 0, 0⟩
      ⟨0, 1000, true, 0, 0, none⟩ 6 (1 / 2) (by norm_num) (by norm_num)⟩

/-- C7 counterexample: one event at msTime 0; after a query at 100 the
cursor has scanned it, and a later query at 50 — strictly before the
preceding query time — leaves the cursor untouched instead of resetting
it, because 50 is not before the msTime of the last scanned event. -/
theorem C7_reset_counterexample :
    ((EventSequence.getEarliestActiveEventIndex [⟨0, 0, none⟩]
          ((EventSequence.getEarliestActiveEventIndex [⟨0, 0, none⟩]
              EventSequence.init 100).2) 50).2).lastPrecedingEventIndex = 0 ∧
      ((EventSequence.getEarliestActiveEventIndex [⟨0, 0, none⟩]
          ((EventSequence.getEarliestActiveEventIndex [⟨0, 0, none⟩]
              EventSequence.init 100).2) 50).2).lastPrecedingEventIndexesOfType =
        [(none, 0)] ∧
      (50 : ℚ) < 100 := by
  refine ⟨?_, ?_, by norm_num⟩ <;> decide

/-- C7 amended: the cursor is fully reset exactly when the query time is
strictly before the msTime of the last scanned event (the only
backward-jump handling); such a query behaves as if issued on a fresh
cursor.  A query time that is merely before the preceding query time does
not reset (see the counterexample). -/
theorem C7_backjump_reset (events : List Ev) (s : EventSequence) (t : ℚ)
    (h1 : s.lastPrecedingEventIndex ≠ -1)
    (h2 : t < (events.getD s.lastPrecedingEventIndex.toNat evDefault).msTime) :
    EventSequence.getEarliestActiveEventIndex events s t =
      EventSequence.getEarliestActiveEventIndex events EventSequence.init t := by
  unfold EventSequence.getEarliestActiveEventIndex EventSequence.cursorAfterReset
  rw [if_pos ⟨h1, h2⟩, if_neg]
  intro hcontra
  exact hcontra.1 rfl

/-- Witness for C7 at a cursor that has scanned the single event at
msTime 10, queried at time 5. -/
theorem C7_backjump_reset_witness :
    (⟨[(none, 0)], 0⟩ : EventSequence).lastPrecedingEventIndex ≠ -1 ∧
      (5 : ℚ) < (([⟨10, 0, none⟩] : List Ev).getD
        (⟨[(none, 0)], 0⟩ : EventSequence).lastPrecedingEventIndex.toNat evDefault).msTime ∧
      EventSequence.getEarliestActiveEventIndex [⟨10, 0, none⟩] ⟨[(none, 0)], 0⟩ 5 =
        EventSequence.getEarliestActiveEventIndex [⟨10, 0, none⟩] EventSequence.init 5 :=
  ⟨by decide, by decide, C7_backjump_reset _ _ _ (by decide) (by decide)⟩

/-- An emitting frame saw at least progressIntervalMs since the last
emission and records its own time as the new emission time. -/
theorem animateFrame_emitted (s : FrameState) (now : ℚ) (emit : Bool)
    (h : (animateFrame s now emit).1 = true) :
    s.progressIntervalMs ≤ now - s.lastProgressEmitTime ∧
      (animateFrame s now emit).2 = ⟨s.progressIntervalMs, now⟩ := by
  cases emit with
  | false => simp [animateFrame] at h
  | true =>
    by_cases hc : s.progressIntervalMs ≤ now - s.lastProgressEmitTime
    · exact ⟨hc, by simp [animateFrame, hc]⟩
    · simp [animateFrame, hc] at h

/-- A non-emitting frame leaves the throttle state unchanged. -/
theorem animateFrame_skipped (s : FrameState) (now : ℚ) (emit : Bool)
    (h : (animateFrame s now emit).1 = false) :
    (animateFrame s now emit).2 = s := by
  cases emit with
  | false => rfl
  | true =>
    by_cases hc : s.progressIntervalMs ≤ now - s.lastProgressEmitTime
    · simp [animateFrame, hc] at h
    · simp [animateFrame, hc]

/-- The first emission of a frame run happens no earlier than the stored
last emission time plus the throttle interval. -/
theorem emitTimes_head_le (frames : List (ℚ × Bool)) :
    ∀ (s : FrameState) (x : ℚ), (emitTimes s frames).head? = some x →
      s.lastProgressEmitTime + s.progressIntervalMs ≤ x := by
  induction frames with
  | nil => intro s x h; simp [emitTimes] at h
  | cons f rest ih =>
    intro s x h
    by_cases hb : (animateFrame s f.1 f.2).1 = true
    · obtain ⟨h1, _⟩ := animateFrame_emitted s f.1 f.2 hb
      simp only [emitTimes, hb, if_true, List.head?_cons, Option.some.injEq] at h
      subst h
      calc s.lastProgressEmitTime + s.progressIntervalMs
          ≤ s.lastProgressEmitTime + (f.1 - s.lastProgressEmitTime) := by
            exact add_le_add_left h1 _
        _ = f.1 := by ring
    · have hb' : (animateFrame s f.1 f.2).1 = false := by
        cases hval : (animateFrame s f.1 f.2).1
        · rfl
        · exact absurd hval hb
      rw [emitTimes] at h
      simp only [hb', if_false, Bool.false_eq_true] at h
      rw [animateFrame_skipped s f.1 f.2 hb'] at h
      exact ih s x h

/-- Successive emission times of a frame run are separated by at least
the throttle interval. -/
theorem emitTimes_chain (frames : List (ℚ × Bool)) :
    ∀ s : FrameState,
      List.Chain' (fun a b => s.progressIntervalMs ≤ b - a) (emitTimes s frames) := by
  induction frames with
  | nil => intro s; simp [emitTimes]
  | cons f rest ih =>
    intro s
    by_cases hb : (animateFrame s f.1 f.2).1 = true
    · obtain ⟨_, h2⟩ := animateFrame_emitted s f.1 f.2 hb
      rw [emitTimes]
      simp only [hb, if_true, h2]
      rw [List.chain'_cons']
      constructor
      · intro y hy
        have hhead := emitTimes_head_le rest ⟨s.progressIntervalMs, f.1⟩ y hy
        have : f.1 + s.progressIntervalMs ≤ y := hhead
        linarith
      · exact ih ⟨s.progressIntervalMs, f.1⟩
    · have hb' : (animateFrame s f.1 f.2).1 = false := by
        cases hval : (animateFrame s f.1 f.2).1
        · rfl
        · exact absurd hval hb
      rw [emitTimes]
      simp only [hb', if_false, Bool.false_eq_true, animateFrame_skipped s f.1 f.2 hb']
      exact ih s

/-- C9: in any run of the frame loop, two successive progress
notifications are separated by at least progressIntervalMs of wall-clock
time, and a frame rendered before the interval has elapsed never emits a
progress notification. -/
theorem C9_progress_throttle (s : FrameState) (frames : List (ℚ × Bool)) :
    List.Chain' (fun a b => s.progressIntervalMs ≤ b - a) (emitTimes s frames) ∧
      ∀ (now : ℚ) (emit : Bool),
        now - s.lastProgressEmitTime < s.progressIntervalMs →
          (animateFrame s now emit).1 = false := by
  refine ⟨emitTimes_chain frames s, fun now emit h => ?_⟩
  cases emit with
  | false => rfl
  | true => simp [animateFrame, not_le.mpr h]

/-- Witness for C9 with a 50 ms interval: the frame at time 10 is
throttled, and the emission times of the run [(10, emit), (60, emit)] are
properly separated. -/
theorem C9_progress_throttle_witness :
    (10 : ℚ) - (⟨50, 0⟩ : FrameState).lastProgressEmitTime <
        (⟨50, 0⟩ : FrameState).progressIntervalMs ∧
      (animateFrame ⟨50, 0⟩ 10 true).1 = false ∧
      List.Chain' (fun a b => (⟨50, 0⟩ : FrameState).progressIntervalMs ≤ b - a)
        (emitTimes ⟨50, 0⟩ [(10, true), (60, true)]) :=
  ⟨by norm_num,
    (C9_progress_throttle ⟨50, 0⟩ [(10, true), (60, true)]).2 10 true (by norm_num),
    (C9_progress_throttle ⟨50, 0⟩ [(10, true), (60, true)]).1⟩

/-- Still-open events stay open at any earlier query time. -/
theorem isOpenAt_mono (events : List Ev) {t1 t2 : ℚ} (i : ℕ) (h : t1 < t2)
    (ho : EventSequence.isOpenAt events t2 i) : EventSequence.isOpenAt events t1 i :=
  lt_trans h ho

/-- The minimum-search step on an open recorded index and no candidate
yet takes the recorded index. -/
theorem minOpenStep_open_none (events : List Ev) (t : ℚ) (kv : Option ℕ × ℕ)
    (hop : EventSequence.isOpenAt events t kv.2) :
    EventSequence.minOpenStep events t none kv = some kv.2 := by
  have hop' : t < (events.getD kv.2 evDefault).msTime + (events.getD kv.2 evDefault).msLength :=
    hop
  simp only [EventSequence.minOpenStep]
  rw [if_pos hop']

/-- The minimum-search step on an open recorded index keeps the smaller
of the candidate and the recorded index. -/
theorem minOpenStep_open_some (events : List Ev) (t : ℚ) (kv : Option ℕ × ℕ) (j : ℕ)
    (hop : EventSequence.isOpenAt events t kv.2) :
    EventSequence.minOpenStep events t (some j) kv =
      if kv.2 < j then some kv.2 else some j := by
  have hop' : t < (events.getD kv.2 evDefault).msTime + (events.getD kv.2 evDefault).msLength :=
    hop
  simp only [EventSequence.minOpenStep]
  rw [if_pos hop']

/-- The minimum-search step ignores a recorded index that is not open. -/
theorem minOpenStep_not_open (events : List Ev) (t : ℚ) (acc : Option ℕ)
    (kv : Option ℕ × ℕ) (hop : ¬ EventSequence.isOpenAt events t kv.2) :
    EventSequence.minOpenStep events t acc kv = acc := by
  have hop' :
      ¬ t < (events.getD kv.2 evDefault).msTime + (events.getD kv.2 evDefault).msLength := hop
  simp only [EventSequence.minOpenStep]
  rw [if_neg hop']

/-- A fold of the minimum-search step that ends with no candidate started
with no candidate and saw no open recorded index. -/
theorem minOpen_fold_none (events : List Ev) (t : ℚ) :
    ∀ (m : List (Option ℕ × ℕ)) (acc : Option ℕ),
      m.foldl (EventSequence.minOpenStep events t) acc = none →
        acc = none ∧ ∀ kv ∈ m, ¬ EventSequence.isOpenAt events t kv.2 := by
  intro m
  induction m with
  | nil => intro acc h; exact ⟨h, by simp⟩
  | cons kv rest ih =>
    intro acc h
    rw [List.foldl_cons] at h
    by_cases hop : EventSequence.isOpenAt events t kv.2
    · exfalso
      cases acc with
      | none =>
        rw [minOpenStep_open_none events t kv hop] at h
        exact Option.noConfusion (ih _ h).1
      | some j =>
        rw [minOpenStep_open_some events t kv j hop] at h
        by_cases hlt : kv.2 < j
        · rw [if_pos hlt] at h
          exact Option.noConfusion (ih _ h).1
        · rw [if_neg hlt] at h
          exact Option.noConfusion (ih _ h).1
    · rw [minOpenStep_not_open events t acc kv hop] at h
      obtain ⟨h1, h2⟩ := ih acc h
      refine ⟨h1, fun kv2 hkv2 => ?_⟩
      rcases List.mem_cons.mp hkv2 with rfl | hmem
      · exact hop
      · exact h2 kv2 hmem

/-- A fold of the minimum-search step that ends with candidate i found an
open index: i is open, comes from the start candidate or the traversed
map, is at most the start candidate, and is at most every open recorded
index of the traversed map. -/
theorem minOpen_fold_some (events : List Ev) (t : ℚ) :
    ∀ (m : List (Option ℕ × ℕ)) (acc : Option ℕ) (i : ℕ),
      (∀ j, acc = some j → EventSequence.isOpenAt events t j) →
      m.foldl (EventSequence.minOpenStep events t) acc = some i →
        EventSequence.isOpenAt events t i ∧
          (acc = some i ∨ i ∈ m.map Prod.snd) ∧
          (∀ j, acc = some j → i ≤ j) ∧
          (∀ kv ∈ m, EventSequence.isOpenAt events t kv.2 → i ≤ kv.2) := by
  intro m
  induction m with
  | nil =>
    intro acc i hacc h
    have hacci : acc = some i := h
    refine ⟨hacc i hacci, Or.inl hacci, fun j hj => ?_, by simp⟩
    rw [hacci] at hj
    exact le_of_eq (Option.some.inj hj)
  | cons kv rest ih =>
    intro acc i hacc h
    rw [List.foldl_cons] at h
    by_cases hop : EventSequence.isOpenAt events t kv.2
    · cases acc with
      | none =>
        rw [minOpenStep_open_none events t kv hop] at h
        have hacc2 : ∀ j, some kv.2 = some j → EventSequence.isOpenAt events t j := by
          intro j hj
          rw [← Option.some.inj hj]
          exact hop
        obtain ⟨hopen, hsrc, hle, hmin⟩ := ih (some kv.2) i hacc2 h
        refine ⟨hopen, ?_, by simp, fun kv2 hkv2 hop2 => ?_⟩
        · right
          rcases hsrc with hsome | hmem
          · have hik : i = kv.2 := (Option.some.inj hsome).symm
            rw [List.map_cons, hik]
            exact List.mem_cons_self _ _
          · exact List.mem_cons_of_mem _ hmem
        · rcases List.mem_cons.mp hkv2 with rfl | hmem
          · exact hle _ rfl
          · exact hmin kv2 hmem hop2
      | some j0 =>
        rw [minOpenStep_open_some events t kv j0 hop] at h
        by_cases hlt : kv.2 < j0
        · rw [if_pos hlt] at h
          have hacc2 : ∀ j, some kv.2 = some j → EventSequence.isOpenAt events t j := by
            intro j hj
            rw [← Option.some.inj hj]
            exact hop
          obtain ⟨hopen, hsrc, hle, hmin⟩ := ih (some kv.2) i hacc2 h
          have hikv : i ≤ kv.2 := hle kv.2 rfl
          refine ⟨hopen, ?_, fun j hj => ?_, fun kv2 hkv2 hop2 => ?_⟩
          · right
            rcases hsrc with hsome | hmem
            · rw [List.map_cons]
              exact (Option.some.inj hsome).symm ▸ List.mem_cons_self _ _
            · exact List.mem_cons_of_mem _ hmem
          · rw [← Option.some.inj hj]
            exact le_trans hikv (le_of_lt hlt)
          · rcases List.mem_cons.mp hkv2 with rfl | hmem
            · exact hikv
            · exact hmin kv2 hmem hop2
        · rw [if_neg hlt] at h
          obtain ⟨hopen, hsrc, hle, hmin⟩ := ih (some j0) i hacc h
          have hij0 : i ≤ j0 := hle j0 rfl
          refine ⟨hopen, ?_, hle, fun kv2 hkv2 hop2 => ?_⟩
          · rcases hsrc with hsome | hmem
            · exact Or.inl hsome
            · exact Or.inr (List.mem_cons_of_mem _ hmem)
          · rcases List.mem_cons.mp hkv2 with rfl | hmem
            · exact le_trans hij0 (not_lt.mp hlt)
            · exact hmin kv2 hmem hop2
    · rw [minOpenStep_not_open events t acc kv hop] at h
      obtain ⟨hopen, hsrc, hle, hmin⟩ := ih acc i hacc h
      refine ⟨hopen, ?_, hle, fun kv2 hkv2 hop2 => ?_⟩
      · rcases hsrc with hsome | hmem
        · exact Or.inl hsome
        · exact Or.inr (List.mem_cons_of_mem _ hmem)
      · rcases List.mem_cons.mp hkv2 with rfl | hmem
        · exact absurd hop2 hop
        · exact hmin kv2 hmem hop2

/-- The minimum-search loop over an all-closed map returns nothing. -/
theorem minOpen_none_not_open (events : List Ev) (t : ℚ) (m : List (Option ℕ × ℕ))
    (h : EventSequence.minOpen events t m = none) :
    ∀ kv ∈ m, ¬ EventSequence.isOpenAt events t kv.2 :=
  (minOpen_fold_none events t m none h).2

/-- The minimum-search loop that returns an index returns the smallest
open recorded index. -/
theorem minOpen_some_props (events : List Ev) (t : ℚ) (m : List (Option ℕ × ℕ)) (i : ℕ)
    (h : EventSequence.minOpen events t m = some i) :
    EventSequence.isOpenAt events t i ∧ i ∈ m.map Prod.snd ∧
      ∀ kv ∈ m, EventSequence.isOpenAt events t kv.2 → i ≤ kv.2 := by
  obtain ⟨hopen, hsrc, _, hmin⟩ :=
    minOpen_fold_some events t m none i (fun j hj => Option.noConfusion hj) h
  rcases hsrc with hsome | hmem
  · exact Option.noConfusion hsome
  · exact ⟨hopen, hmem, hmin⟩

/-- When no recorded index is open, the scan returns
lastPrecedingEventIndex + 1, the first unscanned index. -/
theorem scanAndSelect_sel_none (events : List Ev) (s1 : EventSequence) (t : ℚ)
    (h : EventSequence.minOpen events t
        (EventSequence.scanAndSelect events s1 t).2.lastPrecedingEventIndexesOfType = none) :
    (EventSequence.scanAndSelect events s1 t).1 =
      (EventSequence.scanAndSelect events s1 t).2.lastPrecedingEventIndex + 1 := by
  simp only [EventSequence.scanAndSelect] at h ⊢
  rw [h]
  ring

/-- When the minimum-search returns an index, the scan returns it. -/
theorem scanAndSelect_sel_some (events : List Ev) (s1 : EventSequence) (t : ℚ) (i : ℕ)
    (h : EventSequence.minOpen events t
        (EventSequence.scanAndSelect events s1 t).2.lastPrecedingEventIndexesOfType = some i) :
    (EventSequence.scanAndSelect events s1 t).1 = (i : ℤ) := by
  simp only [EventSequence.scanAndSelect] at h ⊢
  rw [h]

/-- The scan-and-select phase returns the first unscanned index when no
recorded index is still open, and the smallest still-open recorded index
otherwise. -/
theorem scanAndSelect_returns (events : List Ev) (s1 : EventSequence) (t : ℚ) :
    ((∀ kv ∈ (EventSequence.scanAndSelect events s1 t).2.lastPrecedingEventIndexesOfType,
        ¬ EventSequence.isOpenAt events t kv.2) →
      (EventSequence.scanAndSelect events s1 t).1 =
        (EventSequence.scanAndSelect events s1 t).2.lastPrecedingEventIndex + 1) ∧
    (∀ kv0 ∈ (EventSequence.scanAndSelect events s1 t).2.lastPrecedingEventIndexesOfType,
      EventSequence.isOpenAt events t kv0.2 →
      ∃ i : ℕ, (EventSequence.scanAndSelect events s1 t).1 = (i : ℤ) ∧
        i ∈ (EventSequence.scanAndSelect events s1 t).2.lastPrecedingEventIndexesOfType.map
          Prod.snd ∧
        EventSequence.isOpenAt events t i ∧
        ∀ kv ∈ (EventSequence.scanAndSelect events s1 t).2.lastPrecedingEventIndexesOfType,
          EventSequence.isOpenAt events t kv.2 → i ≤ kv.2) := by
  cases hmin : EventSequence.minOpen events t
      (EventSequence.scanAndSelect events s1 t).2.lastPrecedingEventIndexesOfType with
  | none =>
    constructor
    · intro _
      exact scanAndSelect_sel_none events s1 t hmin
    · intro kv0 hkv0 hop0
      exact absurd hop0 (minOpen_none_not_open events t _ hmin kv0 hkv0)
  | some i =>
    obtain ⟨hopen, hmem, hmin2⟩ := minOpen_some_props events t _ i hmin
    constructor
    · intro hall
      exfalso
      obtain ⟨kv, hkv, hkv2⟩ := List.mem_map.mp hmem
      exact hall kv hkv (by rw [hkv2]; exact hopen)
    · intro kv0 hkv0 hop0
      exact ⟨i, scanAndSelect_sel_some events s1 t i hmin, hmem, hopen, hmin2⟩

/-- C2 counterexample: for a fresh sequence over the single zero-length
event at msTime 0 queried at 10, index 0 is unscanned with msTime before
the query time — the lowest (indeed only) index satisfying the claimed
disjunction — yet the call returns 1, which satisfies neither disjunct.
The claimed characterization omits that a freshly scanned event must also
still be open to be returned. -/
theorem C2_earliest_active_counterexample :
    (EventSequence.getEarliestActiveEventIndex [⟨0, 0, none⟩] EventSequence.init 10).1 = 1 ∧
      EventSequence.claimQualifies [⟨0, 0, none⟩] EventSequence.init 10 0 ∧
      ¬ EventSequence.claimQualifies [⟨0, 0, none⟩] EventSequence.init 10 1 := by
  norm_num [EventSequence.getEarliestActiveEventIndex, EventSequence.scanAndSelect,
    EventSequence.cursorAfterReset, EventSequence.scanLoop, EventSequence.minOpen,
    EventSequence.minOpenStep, mapSet, EventSequence.init, EventSequence.isActiveAt,
    EventSequence.isOpenAt, EventSequence.claimQualifies, evDefault]

/-- C2 amended: getEarliestActiveEventIndex(nowMs) returns the smallest
per-lane recorded index whose event is still open
(msTime + msLength > nowMs), and lastPrecedingEventIndex + 1 (the first
unscanned index) when no recorded index is open; in particular, for a
fresh EventSequence over one event with msTime 1000 and msLength 500, the
queries at 900, 1000, 1400, 1600 return 0, 0, 0, 1, implying inactive,
active, active, inactive respectively. -/
theorem C2_earliest_active_index (events : List Ev) (s : EventSequence) (t : ℚ) :
    ((∀ kv ∈ (EventSequence.getEarliestActiveEventIndex events s
          t).2.lastPrecedingEventIndexesOfType,
        ¬ EventSequence.isOpenAt events t kv.2) →
      (EventSequence.getEarliestActiveEventIndex events s t).1 =
        (EventSequence.getEarliestActiveEventIndex events s
          t).2.lastPrecedingEventIndex + 1) ∧
    (∀ kv0 ∈ (EventSequence.getEarliestActiveEventIndex events s
        t).2.lastPrecedingEventIndexesOfType,
      EventSequence.isOpenAt events t kv0.2 →
      ∃ i : ℕ, (EventSequence.getEarliestActiveEventIndex events s t).1 = (i : ℤ) ∧
        i ∈ (EventSequence.getEarliestActiveEventIndex events s
          t).2.lastPrecedingEventIndexesOfType.map Prod.snd ∧
        EventSequence.isOpenAt events t i ∧
        ∀ kv ∈ (EventSequence.getEarliestActiveEventIndex events s
            t).2.lastPrecedingEventIndexesOfType,
          EventSequence.isOpenAt events t kv.2 → i ≤ kv.2) ∧
    ((EventSequence.getEarliestActiveEventIndex [⟨1000, 500, none⟩]
        EventSequence.init 900).1 = 0 ∧
      ¬ EventSequence.isActiveAt [⟨1000, 500, none⟩] 900 0 ∧
      (EventSequence.getEarliestActiveEventIndex [⟨1000, 500, none⟩]
        (EventSequence.getEarliestActiveEventIndex [⟨1000, 500, none⟩]
          EventSequence.init 900).2 1000).1 = 0 ∧
      EventSequence.isActiveAt [⟨1000, 500, none⟩] 1000 0 ∧
      (EventSequence.getEarliestActiveEventIndex [⟨1000, 500, none⟩]
        (EventSequence.getEarliestActiveEventIndex [⟨1000, 500, none⟩]
          (EventSequence.getEarliestActiveEventIndex [⟨1000, 500, none⟩]
            EventSequence.init 900).2 1000).2 1400).1 = 0 ∧
      EventSequence.isActiveAt [⟨1000, 500, none⟩] 1400 0 ∧
      (EventSequence.getEarliestActiveEventIndex [⟨1000, 500, none⟩]
        (EventSequence.getEarliestActiveEventIndex [⟨1000, 500, none⟩]
          (EventSequence.getEarliestActiveEventIndex [⟨1000, 500, none⟩]
            (EventSequence.getEarliestActiveEventIndex [⟨1000, 500, none⟩]
              EventSequence.init 900).2 1000).2 1400).2 1600).1 = 1 ∧
      ¬ EventSequence.isActiveAt [⟨1000, 500, none⟩] 1600 1) := by
  refine ⟨(scanAndSelect_returns events
      (EventSequence.cursorAfterReset events s t) t).1,
    (scanAndSelect_returns events (EventSequence.cursorAfterReset events s t) t).2,
    ?_⟩
  norm_num [EventSequence.getEarliestActiveEventIndex, EventSequence.scanAndSelect,
    EventSequence.cursorAfterReset, EventSequence.scanLoop, EventSequence.minOpen,
    EventSequence.minOpenStep, mapSet, EventSequence.init, EventSequence.isActiveAt,
    EventSequence.isOpenAt, EventSequence.claimQualifies, evDefault]

/-- Witness for C2 at the concrete one-event sequence of the claim,
queried at 1400 on the cursor left by the queries at 900 and 1000: the
recorded index 0 is open there, and the call returns it. -/
theorem C2_earliest_active_index_witness :
    ((0 : ℤ) = (EventSequence.getEarliestActiveEventIndex [⟨1000, 500, none⟩]
        (EventSequence.getEarliestActiveEventIndex [⟨1000, 500, none⟩]
          (EventSequence.getEarliestActiveEventIndex [⟨1000, 500, none⟩]
            EventSequence.init 900).2 1000).2 1400).1) ∧
      ∃ i : ℕ, (EventSequence.getEarliestActiveEventIndex [⟨1000, 500, none⟩]
          (EventSequence.getEarliestActiveEventIndex [⟨1000, 500, none⟩]
            (EventSequence.getEarliestActiveEventIndex [⟨1000, 500, none⟩]
              EventSequence.init 900).2 1000).2 1400).1 = (i : ℤ) ∧
        i ∈ ((EventSequence.getEarliestActiveEventIndex [⟨1000, 500, none⟩]
          (EventSequence.getEarliestActiveEventIndex [⟨1000, 500, none⟩]
            (EventSequence.getEarliestActiveEventIndex [⟨1000, 500, none⟩]
              EventSequence.init 900).2 1000).2
          1400).2.lastPrecedingEventIndexesOfType.map Prod.snd) ∧
        EventSequence.isOpenAt [⟨1000, 500, none⟩] 1400 i ∧
        ∀ kv ∈ (EventSequence.getEarliestActiveEventIndex [⟨1000, 500, none⟩]
            (EventSequence.getEarliestActiveEventIndex [⟨1000, 500, none⟩]
              (EventSequence.getEarliestActiveEventIndex [⟨1000, 500, none⟩]
                EventSequence.init 900).2 1000).2
            1400).2.lastPrecedingEventIndexesOfType,
          EventSequence.isOpenAt [⟨1000, 500, none⟩] 1400 kv.2 → i ≤ kv.2 :=
  ⟨by norm_num [EventSequence.getEarliestActiveEventIndex, EventSequence.scanAndSelect,
    EventSequence.cursorAfterReset, EventSequence.scanLoop, EventSequence.minOpen,
    EventSequence.minOpenStep, mapSet, EventSequence.init, EventSequence.isActiveAt,
    EventSequence.isOpenAt, EventSequence.claimQualifies, evDefault],
    (C2_earliest_active_index [⟨1000, 500, none⟩]
        (EventSequence.getEarliestActiveEventIndex [⟨1000, 500, none⟩]
          (EventSequence.getEarliestActiveEventIndex [⟨1000, 500, none⟩]
            EventSequence.init 900).2 1000).2 1400).2.1
      (none, 0) (by decide) (by norm_num [EventSequence.isOpenAt, evDefault])⟩

/-- Map.set only replaces the entry of its key or appends it. -/
theorem mapSet_mem (m : List (Option ℕ × ℕ)) (k : Option ℕ) (v : ℕ) :
    ∀ kv ∈ mapSet m k v, kv ∈ m ∨ kv = (k, v) := by
  induction m with
  | nil =>
    intro kv h
    simp only [mapSet, List.mem_singleton] at h
    exact Or.inr h
  | cons kv0 rest ih =>
    intro kv h
    simp only [mapSet] at h
    by_cases hk : kv0.1 = k
    · rw [if_pos hk] at h
      rcases List.mem_cons.mp h with rfl | h1
      · exact Or.inr rfl
      · exact Or.inl (List.mem_cons_of_mem _ h1)
    · rw [if_neg hk] at h
      rcases List.mem_cons.mp h with rfl | h1
      · exact Or.inl (List.mem_cons_self _ _)
      · rcases ih kv h1 with h2 | h2
        · exact Or.inl (List.mem_cons_of_mem _ h2)
        · exact Or.inr h2

/-- The scan loop never moves the first-unscanned index backwards. -/
theorem scanLoop_next_ge (t : ℚ) :
    ∀ (l : List Ev) (i : ℕ) (m : List (Option ℕ × ℕ)),
      i ≤ (EventSequence.scanLoop t l i m).2 := by
  intro l
  induction l with
  | nil => intro i m; exact le_refl i
  | cons e rest ih =>
    intro i m
    simp only [EventSequence.scanLoop]
    by_cases hc : e.msTime < t
    · rw [if_pos hc]
      exact le_trans (Nat.le_succ i) (ih (i + 1) _)
    · rw [if_neg hc]

/-- Every entry of the scanned map either was already recorded or records
an index between the scan start and the final first-unscanned index. -/
theorem scanLoop_mem (t : ℚ) :
    ∀ (l : List Ev) (i : ℕ) (m : List (Option ℕ × ℕ)),
      ∀ kv ∈ (EventSequence.scanLoop t l i m).1,
        kv ∈ m ∨ (i ≤ kv.2 ∧ kv.2 < (EventSequence.scanLoop t l i m).2) := by
  intro l
  induction l with
  | nil => intro i m kv h; exact Or.inl h
  | cons e rest ih =>
    intro i m kv h
    simp only [EventSequence.scanLoop] at h ⊢
    by_cases hc : e.msTime < t
    · rw [if_pos hc] at h ⊢
      rcases ih (i + 1) (mapSet m e.type i) kv h with h1 | h1
      · rcases mapSet_mem m e.type i kv h1 with h2 | h2
        · exact Or.inl h2
        · refine Or.inr ⟨le_of_eq (by rw [h2]), ?_⟩
          rw [h2]
          exact lt_of_lt_of_le (Nat.lt_succ_self i) (scanLoop_next_ge t rest (i + 1) _)
      · exact Or.inr ⟨le_trans (Nat.le_succ i) h1.1, h1.2⟩
    · rw [if_neg hc] at h ⊢
      exact Or.inl h

/-- The fresh cursor is well formed. -/
theorem inv_init : EventSequence.Inv EventSequence.init := by
  constructor
  · norm_num [EventSequence.init]
  · intro kv h
    simp [EventSequence.init] at h

/-- The reset block preserves cursor well-formedness. -/
theorem cursorAfterReset_inv (events : List Ev) (s : EventSequence) (t : ℚ)
    (h : EventSequence.Inv s) :
    EventSequence.Inv (EventSequence.cursorAfterReset events s t) := by
  unfold EventSequence.cursorAfterReset
  split
  · exact inv_init
  · exact h

/-- The map of the cursor left by the scan-and-select phase is the
scanned map. -/
theorem scanAndSelect_snd_lanes (events : List Ev) (s1 : EventSequence) (t : ℚ) :
    (EventSequence.scanAndSelect events s1 t).2.lastPrecedingEventIndexesOfType =
      (EventSequence.scanLoop t (events.drop (s1.lastPrecedingEventIndex + 1).toNat)
        (s1.lastPrecedingEventIndex + 1).toNat s1.lastPrecedingEventIndexesOfType).1 := rfl

/-- The scan index of the cursor left by the scan-and-select phase is one
less than the first-unscanned index returned by the scan loop. -/
theorem scanAndSelect_snd_idx (events : List Ev) (s1 : EventSequence) (t : ℚ) :
    (EventSequence.scanAndSelect events s1 t).2.lastPrecedingEventIndex =
      ((EventSequence.scanLoop t (events.drop (s1.lastPrecedingEventIndex + 1).toNat)
        (s1.lastPrecedingEventIndex + 1).toNat s1.lastPrecedingEventIndexesOfType).2 : ℤ) -
        1 := rfl

/-- The scan-and-select phase preserves cursor well-formedness, never
moves the scan index backwards, and only adds map entries with indices
beyond the previous scan index. -/
theorem scanAndSelect_post (events : List Ev) (s1 : EventSequence) (t : ℚ)
    (h : EventSequence.Inv s1) :
    EventSequence.Inv (EventSequence.scanAndSelect events s1 t).2 ∧
      s1.lastPrecedingEventIndex ≤
        (EventSequence.scanAndSelect events s1 t).2.lastPrecedingEventIndex ∧
      ∀ kv ∈ (EventSequence.scanAndSelect events s1 t).2.lastPrecedingEventIndexesOfType,
        kv ∈ s1.lastPrecedingEventIndexesOfType ∨
          s1.lastPrecedingEventIndex < (kv.2 : ℤ) := by
  obtain ⟨hge, hbound⟩ := h
  have hn0 : (((s1.lastPrecedingEventIndex + 1).toNat : ℤ)) = s1.lastPrecedingEventIndex + 1 :=
    Int.toNat_of_nonneg (by omega)
  simp only [EventSequence.Inv, scanAndSelect_snd_lanes, scanAndSelect_snd_idx]
  have hnext : (s1.lastPrecedingEventIndex + 1).toNat ≤
      (EventSequence.scanLoop t (events.drop (s1.lastPrecedingEventIndex + 1).toNat)
        (s1.lastPrecedingEventIndex + 1).toNat s1.lastPrecedingEventIndexesOfType).2 :=
    scanLoop_next_ge t _ _ _
  refine ⟨⟨by omega, ?_⟩, by omega, ?_⟩
  · intro kv hkv
    rcases scanLoop_mem t (events.drop (s1.lastPrecedingEventIndex + 1).toNat)
        (s1.lastPrecedingEventIndex + 1).toNat s1.lastPrecedingEventIndexesOfType kv hkv with
      h1 | h1
    · have h2 := hbound kv h1
      omega
    · omega
  · intro kv hkv
    rcases scanLoop_mem t (events.drop (s1.lastPrecedingEventIndex + 1).toNat)
        (s1.lastPrecedingEventIndex + 1).toNat s1.lastPrecedingEventIndexesOfType kv hkv with
      h1 | h1
    · exact Or.inl h1
    · right
      omega

/-- When the reset condition fails the cursor is kept. -/
theorem cursorAfterReset_of_not (events : List Ev) (s : EventSequence) (t : ℚ)
    (h : ¬ (s.lastPrecedingEventIndex ≠ -1 ∧
      t < (events.getD s.lastPrecedingEventIndex.toNat evDefault).msTime)) :
    EventSequence.cursorAfterReset events s t = s := by
  unfold EventSequence.cursorAfterReset
  exact if_neg h

/-- C3: for successive queries at t1 < t2 on a well-formed cursor, with no
cursor reset between the calls, the second result is at least the first. -/
theorem C3_query_monotone (events : List Ev) (s : EventSequence) (t1 t2 : ℚ)
    (hInv : EventSequence.Inv s) (h12 : t1 < t2)
    (hnoreset : ¬ ((EventSequence.getEarliestActiveEventIndex events s
          t1).2.lastPrecedingEventIndex ≠ -1 ∧
        t2 < (events.getD (EventSequence.getEarliestActiveEventIndex events s
          t1).2.lastPrecedingEventIndex.toNat evDefault).msTime)) :
    (EventSequence.getEarliestActiveEventIndex events s t1).1 ≤
      (EventSequence.getEarliestActiveEventIndex events
        ((EventSequence.getEarliestActiveEventIndex events s t1).2) t2).1 := by
  have hInv1 : EventSequence.Inv (EventSequence.cursorAfterReset events s t1) :=
    cursorAfterReset_inv events s t1 hInv
  have hq1 : EventSequence.getEarliestActiveEventIndex events s t1 =
      EventSequence.scanAndSelect events (EventSequence.cursorAfterReset events s t1) t1 := rfl
  obtain ⟨hInvP1, _, _⟩ :=
    scanAndSelect_post events (EventSequence.cursorAfterReset events s t1) t1 hInv1
  rw [hq1] at hnoreset ⊢
  have hreset2 : EventSequence.cursorAfterReset events
      (EventSequence.scanAndSelect events
        (EventSequence.cursorAfterReset events s t1) t1).2 t2 =
      (EventSequence.scanAndSelect events
        (EventSequence.cursorAfterReset events s t1) t1).2 :=
    cursorAfterReset_of_not events _ t2 hnoreset
  have hq2 : EventSequence.getEarliestActiveEventIndex events
      (EventSequence.scanAndSelect events
        (EventSequence.cursorAfterReset events s t1) t1).2 t2 =
      EventSequence.scanAndSelect events
        (EventSequence.scanAndSelect events
          (EventSequence.cursorAfterReset events s t1) t1).2 t2 := by
    unfold EventSequence.getEarliestActiveEventIndex
    rw [hreset2]
  rw [hq2]
  obtain ⟨hInvP2, hle2, hsrc2⟩ :=
    scanAndSelect_post events
      (EventSequence.scanAndSelect events
        (EventSequence.cursorAfterReset events s t1) t1).2 t2 hInvP1
  obtain ⟨_, hP1b⟩ := hInvP1
  cases hm1 : EventSequence.minOpen events t1
      (EventSequence.scanAndSelect events
        (EventSequence.cursorAfterReset events s t1) t1).2.lastPrecedingEventIndexesOfType with
  | none =>
    have hr1 := scanAndSelect_sel_none events (EventSequence.cursorAfterReset events s t1) t1 hm1
    have hnone1 := minOpen_none_not_open events t1 _ hm1
    cases hm2 : EventSequence.minOpen events t2
        (EventSequence.scanAndSelect events
          (EventSequence.scanAndSelect events
            (EventSequence.cursorAfterReset events s t1) t1).2
          t2).2.lastPrecedingEventIndexesOfType with
    | none =>
      have hr2 := scanAndSelect_sel_none events
        (EventSequence.scanAndSelect events
          (EventSequence.cursorAfterReset events s t1) t1).2 t2 hm2
      rw [hr1, hr2]
      omega
    | some i2 =>
      have hr2 := scanAndSelect_sel_some events
        (EventSequence.scanAndSelect events
          (EventSequence.cursorAfterReset events s t1) t1).2 t2 i2 hm2
      obtain ⟨hopen2, hmem2, _⟩ := minOpen_some_props events t2 _ i2 hm2
      obtain ⟨kv2, hkv2, hkv2i⟩ := List.mem_map.mp hmem2
      have hopenkv2 : EventSequence.isOpenAt events t2 kv2.2 := by
        rw [hkv2i]
        exact hopen2
      rcases hsrc2 kv2 hkv2 with hold | hnew
      · exact absurd (isOpenAt_mono events kv2.2 h12 hopenkv2) (hnone1 kv2 hold)
      · rw [hr1, hr2, ← hkv2i]
        omega
  | some i1 =>
    have hr1 := scanAndSelect_sel_some events
      (EventSequence.cursorAfterReset events s t1) t1 i1 hm1
    obtain ⟨hopen1, hmem1, hmin1⟩ := minOpen_some_props events t1 _ i1 hm1
    obtain ⟨kv1, hkv1, hkv1i⟩ := List.mem_map.mp hmem1
    have hi1le : (i1 : ℤ) ≤
        (EventSequence.scanAndSelect events
          (EventSequence.cursorAfterReset events s t1) t1).2.lastPrecedingEventIndex := by
      have := hP1b kv1 hkv1
      rw [hkv1i] at this
      exact this
    cases hm2 : EventSequence.minOpen events t2
        (EventSequence.scanAndSelect events
          (EventSequence.scanAndSelect events
            (EventSequence.cursorAfterReset events s t1) t1).2
          t2).2.lastPrecedingEventIndexesOfType with
    | none =>
      have hr2 := scanAndSelect_sel_none events
        (EventSequence.scanAndSelect events
          (EventSequence.cursorAfterReset events s t1) t1).2 t2 hm2
      rw [hr1, hr2]
      omega
    | some i2 =>
      have hr2 := scanAndSelect_sel_some events
        (EventSequence.scanAndSelect events
          (EventSequence.cursorAfterReset events s t1) t1).2 t2 i2 hm2
      obtain ⟨hopen2, hmem2, _⟩ := minOpen_some_props events t2 _ i2 hm2
      obtain ⟨kv2, hkv2, hkv2i⟩ := List.mem_map.mp hmem2
      have hopenkv2 : EventSequence.isOpenAt events t2 kv2.2 := by
        rw [hkv2i]
        exact hopen2
      rcases hsrc2 kv2 hkv2 with hold | hnew
      · have : i1 ≤ kv2.2 :=
          hmin1 kv2 hold (isOpenAt_mono events kv2.2 h12 hopenkv2)
        rw [hr1, hr2, ← hkv2i]
        omega
      · rw [hr1, hr2, ← hkv2i]
        omega

/-- Witness for C3 on the one-event sequence at successive queries 900
and 1000 from a fresh cursor. -/
theorem C3_query_monotone_witness :
    EventSequence.Inv EventSequence.init ∧ (900 : ℚ) < 1000 ∧
      (EventSequence.getEarliestActiveEventIndex [⟨1000, 500, none⟩]
          EventSequence.init 900).1 ≤
        (EventSequence.getEarliestActiveEventIndex [⟨1000, 500, none⟩]
          ((EventSequence.getEarliestActiveEventIndex [⟨1000, 500, none⟩]
            EventSequence.init 900).2) 1000).1 :=
  ⟨inv_init, by norm_num,
    C3_query_monotone [⟨1000, 500, none⟩] EventSequence.init 900 1000 inv_init (by norm_num)
      (by decide)⟩

/-- Setting the ended flag of a not-yet-ended source increments the count
of ended sources by one. -/
theorem countP_set_ended (l : List SourceNode) :
    ∀ (i : ℕ) (src : SourceNode), l[i]? = some src → src.ended = false →
      ∀ b : Bool,
        (l.set i ⟨b, true⟩).countP (fun x => x.ended) =
          l.countP (fun x => x.ended) + 1 := by
  induction l with
  | nil =>
    intro i src h _ _
    simp at h
  | cons x xs ih =>
    intro i src h hend b
    cases i with
    | zero =>
      have hx : x = src := by simpa using h
      subst hx
      simp [List.countP_cons, hend]
    | succ n =>
      have h' : xs[n]? = some src := by simpa using h
      simp only [List.set, List.countP_cons, ih n src h' hend b]
      omega

/-- Once paused with all handlers detached, no later occurrence changes
whether the end notification was emitted. -/
theorem run_dead (tr : List SessionEv) :
    ∀ s : PlaySession, PlaySession.DeadInv s →
      (PlaySession.run s tr).endEmitted = s.endEmitted := by
  induction tr with
  | nil => intro s _; rfl
  | cons e rest ih =>
    intro s hd
    obtain ⟨hp, hat⟩ := hd
    have hstep : (PlaySession.step s e).endEmitted = s.endEmitted ∧
        PlaySession.DeadInv (PlaySession.step s e) := by
      cases e with
      | sourceEnded i =>
        cases hgi : s.sources[i]? with
        | none =>
          have heq : PlaySession.step s (.sourceEnded i) = s := by
            simp [PlaySession.step, hgi]
          rw [heq]
          exact ⟨rfl, hp, hat⟩
        | some src =>
          by_cases hend : src.ended = true
          · have heq : PlaySession.step s (.sourceEnded i) = s := by
              simp [PlaySession.step, hgi, hend]
            rw [heq]
            exact ⟨rfl, hp, hat⟩
          · have hatt : src.onendedAttached = false := hat src (List.getElem?_mem hgi)
            have hend' : src.ended = false := by
              cases hv : src.ended
              · rfl
              · exact absurd hv hend
            have heq : PlaySession.step s (.sourceEnded i) =
                { s with sources := s.sources.set i ⟨src.onendedAttached, true⟩ } := by
              simp [PlaySession.step, hgi, hend', hatt]
            rw [heq]
            refine ⟨rfl, hp, fun src2 hsrc2 => ?_⟩
            rcases List.mem_or_eq_of_mem_set hsrc2 with hmem | rfl
            · exact hat src2 hmem
            · exact hatt
      | pauseCall =>
        refine ⟨rfl, rfl, fun src2 hsrc2 => ?_⟩
        simp only [PlaySession.step, PlaySession.detachAll, List.mem_map] at hsrc2
        obtain ⟨a, _, rfl⟩ := hsrc2
        rfl
      | seekCall =>
        refine ⟨rfl, rfl, fun src2 hsrc2 => ?_⟩
        simp only [PlaySession.step, PlaySession.detachAll, List.mem_map] at hsrc2
        obtain ⟨a, _, rfl⟩ := hsrc2
        rfl
    rw [PlaySession.run, List.foldl_cons]
    rw [show List.foldl PlaySession.step (PlaySession.step s e) rest =
      PlaySession.run (PlaySession.step s e) rest from rfl]
    rw [ih (PlaySession.step s e) hstep.2, hstep.1]

/-- In Boolean form, the end notification flag of a live state holds
exactly when there is at least one source and every source has ended. -/
theorem live_emitted_iff (l : List SourceNode) :
    (decide (1 ≤ l.length) && l.all (fun src => src.ended)) = true ↔
      1 ≤ l.length ∧ ∀ j, j < l.length →
        ∃ src, l[j]? = some src ∧ src.ended = true := by
  rw [Bool.and_eq_true, decide_eq_true_iff, List.all_eq_true]
  constructor
  · rintro ⟨h1, h2⟩
    refine ⟨h1, fun j hj => ?_⟩
    exact ⟨l[j], List.getElem?_eq_some.mpr ⟨hj, rfl⟩, h2 _ (List.getElem_mem hj)⟩
  · rintro ⟨h1, h2⟩
    refine ⟨h1, fun src hsrc => ?_⟩
    obtain ⟨j, hj, hjeq⟩ := List.mem_iff_getElem.mp hsrc
    obtain ⟨src2, hs2, he2⟩ := h2 j hj
    rw [List.getElem?_eq_some] at hs2
    obtain ⟨_, hs2e⟩ := hs2
    rw [← hjeq, hs2e]
    exact he2

/-- Core induction for end detection: started from a live session state,
the trace emits the end notification exactly when there is at least one
source and each source index either had already ended or ends naturally
before the first pause or seek of the trace. -/
theorem run_live (tr : List SessionEv) :
    ∀ s : PlaySession, PlaySession.LiveInv s →
      ((PlaySession.run s tr).endEmitted = true ↔
        1 ≤ s.sources.length ∧
          ∀ j, j < s.sources.length →
            ((∃ src, s.sources[j]? = some src ∧ src.ended = true) ∨
              SessionEv.sourceEnded j ∈ tr.takeWhile SessionEv.isSourceEnded)) := by
  induction tr with
  | nil =>
    rintro s ⟨hp, hat, hcnt, hem⟩
    rw [show PlaySession.run s [] = s from rfl, hem]
    simp only [List.takeWhile_nil, List.not_mem_nil, or_false]
    exact live_emitted_iff s.sources
  | cons e rest ih =>
    rintro s ⟨hp, hat, hcnt, hem⟩
    rw [show PlaySession.run s (e :: rest) =
      PlaySession.run (PlaySession.step s e) rest from rfl]
    cases e with
    | pauseCall =>
      have hdead : PlaySession.DeadInv (PlaySession.step s .pauseCall) := by
        refine ⟨rfl, fun src2 hsrc2 => ?_⟩
        simp only [PlaySession.step, PlaySession.detachAll, List.mem_map] at hsrc2
        obtain ⟨a, _, rfl⟩ := hsrc2
        rfl
      rw [run_dead rest _ hdead]
      rw [show (PlaySession.step s .pauseCall).endEmitted = s.endEmitted from rfl, hem]
      rw [List.takeWhile_cons_of_neg (by simp [SessionEv.isSourceEnded])]
      simp only [List.not_mem_nil, or_false]
      exact live_emitted_iff s.sources
    | seekCall =>
      have hdead : PlaySession.DeadInv (PlaySession.step s .seekCall) := by
        refine ⟨rfl, fun src2 hsrc2 => ?_⟩
        simp only [PlaySession.step, PlaySession.detachAll, List.mem_map] at hsrc2
        obtain ⟨a, _, rfl⟩ := hsrc2
        rfl
      rw [run_dead rest _ hdead]
      rw [show (PlaySession.step s .seekCall).endEmitted = s.endEmitted from rfl, hem]
      rw [List.takeWhile_cons_of_neg (by simp [SessionEv.isSourceEnded])]
      simp only [List.not_mem_nil, or_false]
      exact live_emitted_iff s.sources
    | sourceEnded i =>
      rw [List.takeWhile_cons_of_pos (by simp [SessionEv.isSourceEnded])]
      cases hgi : s.sources[i]? with
      | none =>
        have hilen : s.sources.length ≤ i := by
          by_contra hcon
          rw [List.getElem?_eq_some.mpr ⟨not_le.mp hcon, rfl⟩] at hgi
          exact Option.noConfusion hgi
        have heq : PlaySession.step s (.sourceEnded i) = s := by
          simp [PlaySession.step, hgi]
        rw [heq, ih s ⟨hp, hat, hcnt, hem⟩]
        constructor
        · rintro ⟨h1, h2⟩
          refine ⟨h1, fun j hj => ?_⟩
          rcases h2 j hj with hsome | hmem
          · exact Or.inl hsome
          · exact Or.inr (List.mem_cons_of_mem _ hmem)
        · rintro ⟨h1, h2⟩
          refine ⟨h1, fun j hj => ?_⟩
          rcases h2 j hj with hsome | hmem
          · exact Or.inl hsome
          · rcases List.mem_cons.mp hmem with hhead | htail
            · have hji : j = i := by simpa using hhead
              omega
            · exact Or.inr htail
      | some src =>
        have hij : i < s.sources.length := (List.getElem?_eq_some.mp hgi).1
        by_cases hend : src.ended = true
        · have heq : PlaySession.step s (.sourceEnded i) = s := by
            simp [PlaySession.step, hgi, hend]
          rw [heq, ih s ⟨hp, hat, hcnt, hem⟩]
          constructor
          · rintro ⟨h1, h2⟩
            refine ⟨h1, fun j hj => ?_⟩
            rcases h2 j hj with hsome | hmem
            · exact Or.inl hsome
            · exact Or.inr (List.mem_cons_of_mem _ hmem)
          · rintro ⟨h1, h2⟩
            refine ⟨h1, fun j hj => ?_⟩
            rcases h2 j hj with hsome | hmem
            · exact Or.inl hsome
            · rcases List.mem_cons.mp hmem with hhead | htail
              · have hji : j = i := by simpa using hhead
                rw [hji]
                exact Or.inl ⟨src, hgi, hend⟩
              · exact Or.inr htail
        · have hatt : src.onendedAttached = true := hat src (List.getElem?_mem hgi)
          have hend' : src.ended = false := by
            cases hv : src.ended
            · rfl
            · exact absurd hv hend
          have heq : PlaySession.step s (.sourceEnded i) =
              { sources := s.sources.set i ⟨src.onendedAttached, true⟩,
                endedCount := s.endedCount + 1,
                isPaused := s.isPaused,
                endEmitted := s.endEmitted ||
                  (s.endedCount + 1 == s.sources.length && !s.isPaused) } := by
            simp [PlaySession.step, hgi, hend', hatt]
          have hallfalse : s.sources.all (fun x => x.ended) = false :=
            List.all_eq_false.mpr ⟨src, List.getElem?_mem hgi, by simp [hend']⟩
          have hemfalse : s.endEmitted = false := by
            rw [hem, hallfalse, Bool.and_false]
          have hcnt2 : (s.sources.set i ⟨src.onendedAttached, true⟩).countP
              (fun x => x.ended) = s.sources.countP (fun x => x.ended) + 1 :=
            countP_set_ended s.sources i src hgi hend' src.onendedAttached
          have hlen2 : (s.sources.set i ⟨src.onendedAttached, true⟩).length =
              s.sources.length := List.length_set s.sources i _
          have hem2 : (s.endEmitted ||
              (s.endedCount + 1 == s.sources.length && !s.isPaused)) =
              (decide (1 ≤ (s.sources.set i ⟨src.onendedAttached, true⟩).length) &&
                (s.sources.set i ⟨src.onendedAttached, true⟩).all (fun x => x.ended)) := by
            rw [hemfalse, hp, Bool.false_or, Bool.not_false, Bool.and_true]
            by_cases hall : (s.sources.set i ⟨src.onendedAttached, true⟩).all
                (fun x => x.ended) = true
            · have hcntlen : (s.sources.set i ⟨src.onendedAttached, true⟩).countP
                  (fun x => x.ended) =
                  (s.sources.set i ⟨src.onendedAttached, true⟩).length :=
                List.countP_eq_length.mpr (List.all_eq_true.mp hall)
              rw [hcnt2, hlen2] at hcntlen
              have h1n : 1 ≤ s.sources.length := by omega
              rw [hall, hlen2, hcnt, hcntlen]
              simp [h1n]
            · have hall' : (s.sources.set i ⟨src.onendedAttached, true⟩).all
                  (fun x => x.ended) = false := by
                cases hv : (s.sources.set i ⟨src.onendedAttached, true⟩).all
                    (fun x => x.ended)
                · rfl
                · exact absurd hv hall
              have hcntne : s.endedCount + 1 ≠ s.sources.length := by
                intro hcon
                apply hall
                rw [List.all_eq_true]
                intro x hx
                apply List.countP_eq_length.mp
                · rw [hcnt2, hlen2, ← hcnt]
                  exact hcon
                · exact hx
              rw [hall', Bool.and_false]
              exact beq_eq_false_iff_ne.mpr hcntne
          rw [heq]
          have hLive2 : PlaySession.LiveInv
              { sources := s.sources.set i ⟨src.onendedAttached, true⟩,
                endedCount := s.endedCount + 1,
                isPaused := s.isPaused,
                endEmitted := s.endEmitted ||
                  (s.endedCount + 1 == s.sources.length && !s.isPaused) } := by
            refine ⟨hp, fun src2 hsrc2 => ?_, ?_, hem2⟩
            · rcases List.mem_or_eq_of_mem_set hsrc2 with hmem | rfl
              · exact hat src2 hmem
              · exact hatt
            · rw [hcnt2, hcnt]
          rw [ih _ hLive2]
          constructor
          · rintro ⟨h1, h2⟩
            rw [hlen2] at h1
            refine ⟨h1, fun j hj => ?_⟩
            by_cases hji : j = i
            · subst hji
              exact Or.inr (List.mem_cons_self _ _)
            · have hj2 : j < (s.sources.set i ⟨src.onendedAttached, true⟩).length := by
                rw [hlen2]
                exact hj
              rcases h2 j hj2 with ⟨src2, hs2, he2⟩ | hmem
              · rw [List.getElem?_set_ne (fun hcon => hji hcon.symm)] at hs2
                exact Or.inl ⟨src2, hs2, he2⟩
              · exact Or.inr (List.mem_cons_of_mem _ hmem)
          · rintro ⟨h1, h2⟩
            refine ⟨by rw [hlen2]; exact h1, fun j hj => ?_⟩
            rw [hlen2] at hj
            by_cases hji : j = i
            · subst hji
              exact Or.inl ⟨⟨src.onendedAttached, true⟩,
                List.getElem?_set_self hj, rfl⟩
            · rcases h2 j hj with ⟨src2, hs2, he2⟩ | hmem
              · refine Or.inl ⟨src2, ?_, he2⟩
                rw [List.getElem?_set_ne (fun hcon => hji hcon.symm)]
                exact hs2
              · rcases List.mem_cons.mp hmem with hhead | htail
                · exact absurd (by simpa using hhead) hji
                · exact Or.inr htail

/-- C6: with at least one decoded buffer, the end notification fires iff
every started source reports natural completion while the instance is
still playing — that is, before any pause() or seek() detaches the
completion handlers; in particular a stop triggered by pause() or seek()
never causes an end notification, and a completion observed afterwards
(while paused) does not emit end. -/
theorem C6_end_notification (n : ℕ) (tr : List SessionEv) (hn : 1 ≤ n) :
    (PlaySession.run (PlaySession.init n) tr).endEmitted = true ↔
      ∀ i, i < n → SessionEv.sourceEnded i ∈ tr.takeWhile SessionEv.isSourceEnded := by
  have hLive : PlaySession.LiveInv (PlaySession.init n) := by
    refine ⟨rfl, fun src hsrc => ?_, ?_, ?_⟩
    · simp only [PlaySession.init] at hsrc
      rw [List.eq_of_mem_replicate hsrc]
    · simp only [PlaySession.init]
      symm
      rw [List.countP_eq_zero]
      intro a ha
      rw [List.eq_of_mem_replicate ha]
      simp
    · simp only [PlaySession.init]
      have hall : (List.replicate n (⟨true, false⟩ : SourceNode)).all
          (fun x => x.ended) = false :=
        List.all_eq_false.mpr ⟨⟨true, false⟩,
          List.mem_replicate.mpr ⟨by omega, rfl⟩, by simp⟩
      rw [hall, Bool.and_false]
  rw [run_live tr (PlaySession.init n) hLive]
  have hlen : (PlaySession.init n).sources.length = n := by
    simp [PlaySession.init]
  constructor
  · rintro ⟨_, h2⟩
    intro i hi
    have hi2 : i < (PlaySession.init n).sources.length := by
      rw [hlen]
      exact hi
    rcases h2 i hi2 with ⟨src, hs, he⟩ | hmem
    · exfalso
      have hmem2 := List.getElem?_mem hs
      simp only [PlaySession.init] at hmem2
      rw [List.eq_of_mem_replicate hmem2] at he
      simp at he
    · exact hmem
  · intro h2
    refine ⟨by rw [hlen]; exact hn, fun j hj => ?_⟩
    rw [hlen] at hj
    exact Or.inr (h2 j hj)

/-- Witness for C6: one buffer whose source completes naturally with no
pause or seek in the trace. -/
theorem C6_end_notification_witness :
    1 ≤ 1 ∧
      ((PlaySession.run (PlaySession.init 1) [.sourceEnded 0]).endEmitted = true ↔
        ∀ i, i < 1 → SessionEv.sourceEnded i ∈
          List.takeWhile SessionEv.isSourceEnded [SessionEv.sourceEnded 0]) :=
  ⟨le_refl 1, C6_end_notification 1 [.sourceEnded 0] (le_refl 1)⟩
